import Mathlib

/-!
Verification of the rule/change application and pull-request engine of
`pkg/cmd/pr/pr.go` (jx-updatebot `pr` command).

The Go source is shallowly embedded below. Pure computations (URL splitting,
default pull-request title synthesis, version-precedence resolution, the
label-filter update) are translated directly from the source. The stateful
rule/URL loop of `Options.Run` (lines 127-204) is embedded as explicit state
passing over an `EngineState` record, parameterised over the external
collaborators the source calls out to:

* the four per-variant change appliers (`ApplyCommand`, `ApplyGo`,
  `ApplyRegex`, `ApplyVersionStream`) live in other files of the repository
  and are abstracted as an `ApplyFns` bundle acting on an abstract
  file-system state `σ`;
* `EnvironmentPullRequestOptions.Create` (external jx-promote collaborator)
  is modelled from its specified contract: it runs the deferred change
  function (`o.Function`, lines 162-181) and then either fails, returns no
  pull request, or returns a created pull request, the SCM part being an
  oracle `createOracle`.

Each per-URL iteration additionally records an `IterTrace` of the
observables the specification talks about (branch name at details
construction, the details title, the title after the change function ran,
the label filter passed to `Create`, how many changes were attempted, and
the created PR, if any).
-/

namespace JxUpdatebot

/-- Splits a character list at every occurrence of the separator character,
keeping empty segments, as Go `strings.Split` does for a one-character
separator. The result is always non-empty. -/
def splitChars (c : Char) : List Char → List (List Char)
  | [] => [[]]
  | x :: xs =>
    let r := splitChars c xs
    if x = c then [] :: r
    else
      match r with
      | [] => [[x]]
      | h :: t => (x :: h) :: t

/-- Models Go `strings.Split(s, sep)` for a single-character separator `sep`,
as used at line 173 of `pkg/cmd/pr/pr.go` with separator `"/"`. -/
def goSplit (c : Char) (s : String) : List String :=
  (splitChars c s.toList).map (fun l => String.mk l)

/-- Models lines 172-176 of `pkg/cmd/pr/pr.go`: the default pull-request
title synthesized by the change function when no title is configured.
The source indexes the split-segment slice at positions `len-2` and `len-1`
unconditionally; when the split yields fewer than two segments the Go code
panics with an index-out-of-range runtime error, which is modelled here by
returning `none`. -/
def defaultTitle (gitURL version : String) : Option String :=
  let parts := goSplit '/' gitURL
  if 2 ≤ parts.length then
    some ("chore(deps): upgrade " ++ parts.getD (parts.length - 2) "" ++ "/" ++
      parts.getD (parts.length - 1) "" ++ " to version " ++ version)
  else
    none

/-- The whitespace characters trimmed by Go `strings.TrimSpace` (ASCII
subset; the claims only involve ASCII contents). -/
def isSpaceChar (c : Char) : Bool :=
  c == ' ' || c == '\t' || c == '\n' || c == '\x0b' || c == '\x0c' || c == '\r'

/-- Models Go `strings.TrimSpace` (line 227 of `pkg/cmd/pr/pr.go`). -/
def trimSpace (s : String) : String :=
  String.mk (((s.toList.dropWhile isSpaceChar).reverse.dropWhile isSpaceChar).reverse)

/-- Models Go `filepath.Join(a, b)` as used at line 216; the Go function
additionally cleans the resulting path, which none of the claims depend
on. -/
def filepathJoin (a b : String) : String := a ++ "/" ++ b

/-- Error outcome of the version-resolution part of `Options.Validate`. -/
inductive ValidateErr where
  | missingOption (name : String)
deriving DecidableEq

/-- Inputs read by the version-resolution part of `Options.Validate`
(lines 214-237): the explicitly configured version, the configured version
file and directory, the file system (`none` = file does not exist;
read errors are not modelled), the `VERSION` environment variable, and the
`--no-version` flag. -/
structure VersionInputs where
  version : String
  versionFile : String
  dir : String
  fileContents : String → Option String
  envVERSION : String
  noVersion : Bool

/-- The version file path after defaulting (line 215-217): the configured
`VersionFile` if non-empty, else `<dir>/VERSION`. -/
def versionFilePath (i : VersionInputs) : String :=
  if i.versionFile = "" then filepathJoin i.dir "VERSION" else i.versionFile

/-- The version contributed by the version file (lines 218-230): the trimmed
file contents when the file exists, the empty string otherwise. -/
def fileVersion (i : VersionInputs) : String :=
  match i.fileContents (versionFilePath i) with
  | some data => trimSpace data
  | none => ""

/-- Translation of the version-resolution prefix of `Options.Validate`
(lines 214-237): an explicitly set `Version` is kept; otherwise the trimmed
version-file contents are taken; if the version is still empty it is read
from the `VERSION` environment variable, and if it remains empty while
`NoVersion` is unset, the missing-option error for `"version"` is
returned. -/
def validateVersion (i : VersionInputs) : Except ValidateErr String :=
  let v1 := if i.version = "" then fileVersion i else i.version
  let v2 := if v1 = "" then i.envVERSION else v1
  if v2 = "" ∧ i.noVersion = false then .error (.missingOption "version") else .ok v2

/-- Modelled from the spec: the `v1alpha1.Change` type
(`pkg/apis/updatebot/v1alpha1` is not part of `src/`). A tagged union with
four optional variant sub-fields (`Command`, `Go`, `Regex`,
`VersionStream`); the payload types are abstract parameters since the
engine only inspects which sub-fields are nil. -/
structure Change (κ γ ρ ν : Type) where
  command : Option κ
  go : Option γ
  regex : Option ρ
  versionStream : Option ν

/-- The four per-variant change appliers (`ApplyCommand`, `ApplyGo`,
`ApplyRegex`, `ApplyVersionStream`), which live in other files of the
repository, abstracted as functions over an abstract file-system state `σ`
taking the repository git URL and the variant payload. -/
structure ApplyFns (σ κ γ ρ ν : Type) where
  applyCommand : σ → String → κ → Except String σ
  applyGo : σ → String → γ → Except String σ
  applyRegex : σ → String → ρ → Except String σ
  applyVersionStream : σ → String → ν → Except String σ

/-- The message logged at line 337 when a change has no known variant. -/
def ignoreMsg : String := "ignoring unknown change"

variable {σ κ γ ρ ν : Type}

/-- Translation of `Options.ApplyChanges` (lines 324-339): sequential
nil-checks dispatching on the first populated variant sub-field; when all
four sub-fields are nil the change is logged as ignored and no error is
returned. The result carries the (possibly mutated) file-system state and
the log messages emitted by the dispatcher itself. -/
def ApplyChanges (fns : ApplyFns σ κ γ ρ ν) (fs : σ) (gitURL : String)
    (change : Change κ γ ρ ν) : Except String (σ × List String) :=
  match change.command with
  | some c => (fns.applyCommand fs gitURL c).map (fun fs2 => (fs2, []))
  | none =>
    match change.go with
    | some g => (fns.applyGo fs gitURL g).map (fun fs2 => (fs2, []))
    | none =>
      match change.regex with
      | some r => (fns.applyRegex fs gitURL r).map (fun fs2 => (fs2, []))
      | none =>
        match change.versionStream with
        | some v => (fns.applyVersionStream fs gitURL v).map (fun fs2 => (fs2, []))
        | none => .ok (fs, [ignoreMsg])

/-- Translation of the change loop of the deferred change function
(lines 165-171): applies each change of the rule in order, stopping at the
first failure, which is wrapped as `errors.Wrapf(err, "failed to apply
change")`. The first component counts how many changes were invoked. -/
def runChanges (fns : ApplyFns σ κ γ ρ ν) (gitURL : String) :
    σ → List (Change κ γ ρ ν) → Nat × Except String σ
  | fs, [] => (0, .ok fs)
  | fs, ch :: rest =>
    match ApplyChanges fns fs gitURL ch with
    | .error e => (1, .error ("failed to apply change: " ++ e))
    | .ok (fs2, _) =>
      let r := runChanges fns gitURL fs2 rest
      (r.1 + 1, r.2)

/-- The sentinel label `environments.LabelUpdatebot` appended to the
pull-request filter under auto-merge. Modelled from the spec: the constant
is declared in the external jx-promote `environments` package; the spec
names it the sentinel `"updatebot"` label. -/
def sentinelLabel : String := "updatebot"

/-- Translation of lines 184-191: ensure the pull-request filter labels
contain the sentinel label, appending it only when
`stringhelpers.StringArrayIndex` does not find it (i.e. when it is not a
member). -/
def ensureLabel (ls : List String) : List String :=
  if sentinelLabel ∈ ls then ls else ls ++ [sentinelLabel]

/-- The mutable fields of `Options` (and its embedded
`EnvironmentPullRequestOptions`) that the `Run` loop of lines 127-204 reads
and writes, together with the abstract file-system state acted on by the
change appliers. `prs` records the pull requests accumulated by
`o.AddPullRequest` (line 201). -/
structure EngineState (σ : Type) where
  fs : σ
  version : String
  pullRequestTitle : String
  pullRequestBody : String
  commitTitle : String
  branchName : String
  fork : Bool
  filterLabels : Option (List String)
  prs : List String
deriving DecidableEq

/-- The `scm.PullRequest` details value built at lines 147-160. -/
structure PRDetails where
  source : String
  title : String
  body : String
  draft : Bool
  labels : List (String × String)
deriving DecidableEq

/-- Translation of lines 147-160: the details are built fresh from the
current option fields; each configured label yields one entry whose name
and description are both the label. -/
def mkDetails (labels : List String) (s : EngineState σ) : PRDetails :=
  { source := "", title := s.pullRequestTitle, body := s.pullRequestBody, draft := false,
    labels := labels.map (fun l => (l, l)) }

/-- The error wrapping applied by `Run` at line 195:
`errors.Wrapf(err, "failed to create Pull Request on repository %s", gitURL)`. -/
def prWrap (gitURL e : String) : String :=
  "failed to create Pull Request on repository " ++ gitURL ++ ": " ++ e

/-- The Go runtime panic raised by the out-of-range slice index at line 174
when the git URL splits into fewer than two segments. -/
def panicMsg : String := "panic: runtime error: index out of range"

/-- Observables of one non-empty-URL iteration of the `Run` loop:
the branch name at the moment the details are constructed (line 148), the
title placed into the details, the pull-request title after the deferred
change function ran (`none` when it failed before the synthesis), the
filter labels in effect at the `Create` call, the number of changes the
change function invoked, and the created pull request, if any. -/
structure IterTrace where
  url : String
  branchAtDetails : String
  detailsTitle : String
  titleAfterFn : Option String
  filterAtCreate : List String
  attempted : Nat
  created : Option String
deriving DecidableEq

/-- Modelled from the spec (§4.4): the external
`EnvironmentPullRequestOptions.Create` collaborator (jx-promote) runs the
deferred change function and then performs the SCM reconciliation, whose
outcome is the oracle `createOracle` (`.ok none` = no pull request needed,
`.ok (some pr)` = pull request created/reused, `.error` = git/SCM failure).
The change function itself (lines 162-181 of `pkg/cmd/pr/pr.go`) is
translated directly: it applies the rule's changes in order, and on success
synthesizes the default pull-request title when the title field is empty
(`none` from `defaultTitle` models the Go panic at line 174) and defaults
the commit title to the pull-request title when unset. The result is
(title after the change function, created PR, outcome). -/
def changeFnAndCreate (fns : ApplyFns σ κ γ ρ ν)
    (createOracle : String → Except String (Option String))
    (changes : List (Change κ γ ρ ν)) (gitURL : String) (s2 : EngineState σ) :
    Option String × Option String × Except String (EngineState σ) :=
  match (runChanges fns gitURL s2.fs changes).2 with
  | .error e => (none, none, .error (prWrap gitURL e))
  | .ok fs2 =>
    match (if s2.pullRequestTitle = "" then defaultTitle gitURL s2.version
           else some s2.pullRequestTitle) with
    | none => (none, none, .error panicMsg)
    | some t =>
      let s3 : EngineState σ :=
        { s2 with fs := fs2, pullRequestTitle := t,
                  commitTitle := if s2.commitTitle = "" then t else s2.commitTitle }
      match createOracle gitURL with
      | .error e => (some t, none, .error (prWrap gitURL e))
      | .ok none => (some t, none, .ok s3)
      | .ok (some pr) => (some t, some pr, .ok { s3 with prs := s3.prs ++ [pr] })

/-- Translation of one non-empty-URL iteration of the `Run` loop
(lines 144-201): clear the branch name (line 145), build the details
(lines 147-160), under auto-merge ensure the pull-request filter carries the
sentinel label (lines 184-191), then delegate to `Create`, which runs the
deferred change function. Returns the iteration's observables and either
the resulting state or the propagated wrapped error. -/
def processURL (fns : ApplyFns σ κ γ ρ ν)
    (createOracle : String → Except String (Option String))
    (autoMerge : Bool) (labels : List String) (changes : List (Change κ γ ρ ν))
    (s : EngineState σ) (gitURL : String) :
    IterTrace × Except String (EngineState σ) :=
  let s1 : EngineState σ := { s with branchName := "" }
  let details := mkDetails labels s1
  let flt := if autoMerge then ensureLabel (s1.filterLabels.getD []) else s1.filterLabels.getD []
  let s2 : EngineState σ := if autoMerge then { s1 with filterLabels := some flt } else s1
  let core := changeFnAndCreate fns createOracle changes gitURL s2
  ({ url := gitURL, branchAtDetails := s1.branchName, detailsTitle := details.title,
     titleAfterFn := core.1, filterAtCreate := flt,
     attempted := (runChanges fns gitURL s2.fs changes).1, created := core.2.1 },
   core.2.2)

/-- The warning logged at line 140 for a URL entry that is empty. -/
def emptyURLWarn : String := "missing out repository as it has no git URL"

/-- The warning logged at line 136 for a rule with no URLs. -/
def noURLsWarn : String := "no URLs to process for rule"

/-- Translation of the URL loop of `Run` (lines 138-202): empty URL entries
are skipped with a warning; for the others `processURL` runs, and its error
aborts the loop. Returns the iteration traces, the warnings, and the final
state or error. -/
def processURLs (fns : ApplyFns σ κ γ ρ ν)
    (createOracle : String → Except String (Option String))
    (autoMerge : Bool) (labels : List String) (changes : List (Change κ γ ρ ν)) :
    EngineState σ → List String → List IterTrace × List String × Except String (EngineState σ)
  | s, [] => ([], [], .ok s)
  | s, u :: rest =>
    if u = "" then
      let r := processURLs fns createOracle autoMerge labels changes s rest
      (r.1, emptyURLWarn :: r.2.1, r.2.2)
    else
      match processURL fns createOracle autoMerge labels changes s u with
      | (t, .error e) => ([t], [], .error e)
      | (t, .ok s2) =>
        let r := processURLs fns createOracle autoMerge labels changes s2 rest
        (t :: r.1, r.2.1, r.2.2)

/-- Modelled from the spec for the URL list: one rule of
`UpdateConfig.Spec.Rules` (`v1alpha1` types are not part of `src/`), with
its URLs taken after `FindURLs` resolution (`GoFindURLs` lives outside
`src/`), its fork flag, and its ordered change list. -/
structure Rule (κ γ ρ ν : Type) where
  fork : Bool
  urls : List String
  changes : List (Change κ γ ρ ν)

/-- Translation of one rule iteration of `Run` (lines 134-202): set the
engine's fork flag from the rule (line 134), warn when the resolved URL
list is empty (lines 135-137, the URL loop then runs zero times), otherwise
run the URL loop. -/
def processRule (fns : ApplyFns σ κ γ ρ ν)
    (createOracle : String → Except String (Option String))
    (autoMerge : Bool) (labels : List String) (rule : Rule κ γ ρ ν)
    (s : EngineState σ) : List IterTrace × List String × Except String (EngineState σ) :=
  let s1 : EngineState σ := { s with fork := rule.fork }
  if rule.urls = [] then ([], [noURLsWarn], .ok s1)
  else processURLs fns createOracle autoMerge labels rule.changes s1 rule.urls

/-- Translation of the rule loop of `Run` (lines 127-204): rules are
processed in order; an error from any rule aborts the whole run. -/
def runRules (fns : ApplyFns σ κ γ ρ ν)
    (createOracle : String → Except String (Option String))
    (autoMerge : Bool) (labels : List String) :
    List (Rule κ γ ρ ν) → EngineState σ →
      List IterTrace × List String × Except String (EngineState σ)
  | [], s => ([], [], .ok s)
  | r :: rest, s =>
    match processRule fns createOracle autoMerge labels r s with
    | (ts, ws, .error e) => (ts, ws, .error e)
    | (ts, ws, .ok s2) =>
      let r2 := runRules fns createOracle autoMerge labels rest s2
      (ts ++ r2.1, ws ++ r2.2.1, r2.2.2)

/-- Invariant used for the sentinel-label analysis: the engine's filter
labels are either still the initial list `f0` or `f0` with the sentinel
ensured. -/
def inv (f0 : List String) (s : EngineState σ) : Prop :=
  s.filterLabels.getD [] = f0 ∨ s.filterLabels.getD [] = ensureLabel f0

/-- Variant appliers over trivial payloads that always succeed. -/
def unitFns : ApplyFns Unit Unit Unit Unit Unit :=
  { applyCommand := fun _ _ _ => .ok (), applyGo := fun _ _ _ => .ok (),
    applyRegex := fun _ _ _ => .ok (), applyVersionStream := fun _ _ _ => .ok () }

/-- Variant appliers whose command applier fails with `"boom"`. -/
def failFns : ApplyFns Unit Unit Unit Unit Unit :=
  { applyCommand := fun _ _ _ => .error "boom", applyGo := fun _ _ _ => .ok (),
    applyRegex := fun _ _ _ => .ok (), applyVersionStream := fun _ _ _ => .ok () }

/-- Initial engine state for concrete runs: version `1.2.3`, no configured
pull-request title, commit title, branch name or filter. -/
def s0 : EngineState Unit :=
  { fs := (), version := "1.2.3", pullRequestTitle := "", pullRequestBody := "",
    commitTitle := "", branchName := "", fork := false, filterLabels := none, prs := [] }

/-- Engine state with an explicitly configured pull-request title. -/
def sT : EngineState Unit := { s0 with pullRequestTitle := "t0" }

/-- SCM oracle that always reports a created pull request `"pr-1"`. -/
def prOracle : String → Except String (Option String) := fun _ => .ok (some "pr-1")

/-- A change with no populated variant sub-field. -/
def noneChange : Change Unit Unit Unit Unit := ⟨none, none, none, none⟩

/-- A command-variant change (over the trivial payload). -/
def cmdChange : Change Unit Unit Unit Unit := ⟨some (), none, none, none⟩

/-- One rule with two non-empty URLs and no changes. -/
def rules2 : List (Rule Unit Unit Unit Unit) :=
  [{ fork := false,
     urls := ["https://github.com/acme/widgets.git", "https://github.com/acme/gadgets.git"],
     changes := [] }]

/-- A rule with an empty resolved URL list. -/
def ruleE : Rule Unit Unit Unit Unit := { fork := true, urls := [], changes := [] }

/-- Concrete change list whose second change fails under `failFns`. -/
def csW : List (Change Unit Unit Unit Unit) := [noneChange, cmdChange]

/-- Concrete git URL used by the failure-propagation witness. -/
def urlW : String := "https://github.com/acme/widgets.git"

/-- Version inputs with an explicit version, an existing version file and a
set environment variable. -/
def vinp1 : VersionInputs :=
  { version := "9.9.9", versionFile := "", dir := "/work",
    fileContents := fun p => if p = "/work/VERSION" then some "1.0.0\n" else none,
    envVERSION := "2.0.0", noVersion := false }

/-- Version inputs with no version from any source and `NoVersion` unset. -/
def vinp2 : VersionInputs :=
  { version := "", versionFile := "", dir := "/work",
    fileContents := fun _ => none, envVERSION := "", noVersion := false }

/-- The iteration trace of the first URL of `rules2` under `unitFns` and
`prOracle` from `s0`. -/
def t9 : IterTrace :=
  { url := "https://github.com/acme/widgets.git", branchAtDetails := "", detailsTitle := "",
    titleAfterFn := some "chore(deps): upgrade acme/widgets.git to version 1.2.3",
    filterAtCreate := ["updatebot"], attempted := 0, created := some "pr-1" }

/-! ## Theorems -/

/-- C7: for every Change value whose four variant sub-fields are all nil,
`ApplyChanges` returns no error, logs that the change is ignored, and
leaves the file-system state unchanged. -/
theorem c7_unknown_change_noop (fns : ApplyFns σ κ γ ρ ν) (fs : σ) (gitURL : String)
    (ch : Change κ γ ρ ν) (h1 : ch.command = none) (h2 : ch.go = none)
    (h3 : ch.regex = none) (h4 : ch.versionStream = none) :
    ApplyChanges fns fs gitURL ch = .ok (fs, [ignoreMsg]) := by
  simp [ApplyChanges, h1, h2, h3, h4]

/-- Witness for C7 at a concrete all-nil change. -/
theorem c7_unknown_change_noop_witness :
    ApplyChanges unitFns () "https://github.com/acme/widgets.git" noneChange
      = .ok ((), [ignoreMsg]) :=
  c7_unknown_change_noop unitFns () "https://github.com/acme/widgets.git" noneChange
    rfl rfl rfl rfl

/-- C8: at the start of processing every non-empty repository URL the
engine's `BranchName` is reset to the empty string before the pull-request
details are built, and the whole iteration is therefore independent of
whatever branch name a previous iteration left behind. -/
theorem c8_branch_name_reset (fns : ApplyFns σ κ γ ρ ν)
    (createOracle : String → Except String (Option String)) (autoMerge : Bool)
    (labels : List String) (changes : List (Change κ γ ρ ν)) (s : EngineState σ)
    (b gitURL : String) :
    (processURL fns createOracle autoMerge labels changes s gitURL).1.branchAtDetails = "" ∧
    processURL fns createOracle autoMerge labels changes { s with branchName := b } gitURL
      = processURL fns createOracle autoMerge labels changes s gitURL :=
  ⟨rfl, rfl⟩

/-- C6: an empty-string entry in a rule's URL list is skipped with a warning
and no error, no iteration trace (hence no pull-request attempt) is produced
for it, and the remaining URLs of the same rule are processed exactly as if
the empty entry were absent. -/
theorem c6_empty_url_skipped (fns : ApplyFns σ κ γ ρ ν)
    (createOracle : String → Except String (Option String)) (autoMerge : Bool)
    (labels : List String) (changes : List (Change κ γ ρ ν)) (rest : List String)
    (s : EngineState σ) :
    processURLs fns createOracle autoMerge labels changes s ("" :: rest)
      = ((processURLs fns createOracle autoMerge labels changes s rest).1,
         emptyURLWarn :: (processURLs fns createOracle autoMerge labels changes s rest).2.1,
         (processURLs fns createOracle autoMerge labels changes s rest).2.2) := by
  simp [processURLs]

/-- C5: a rule whose resolved URL list is empty produces no iteration trace
(zero pull requests), only a warning, and no error; the run continues with
the next rule from the state whose only update is the rule's fork flag. -/
theorem c5_empty_rule_noop (fns : ApplyFns σ κ γ ρ ν)
    (createOracle : String → Except String (Option String)) (autoMerge : Bool)
    (labels : List String) (r : Rule κ γ ρ ν) (rest : List (Rule κ γ ρ ν))
    (s : EngineState σ) (hr : r.urls = []) :
    processRule fns createOracle autoMerge labels r s
      = ([], [noURLsWarn], .ok { s with fork := r.fork }) ∧
    runRules fns createOracle autoMerge labels (r :: rest) s
      = ((runRules fns createOracle autoMerge labels rest { s with fork := r.fork }).1,
         noURLsWarn ::
           (runRules fns createOracle autoMerge labels rest { s with fork := r.fork }).2.1,
         (runRules fns createOracle autoMerge labels rest { s with fork := r.fork }).2.2) := by
  constructor
  · simp [processRule, hr]
  · simp [runRules, processRule, hr]

/-- Witness for C5: a concrete empty-URL rule is a warning-only no-op. -/
theorem c5_empty_rule_noop_witness :
    processRule unitFns prOracle true [] ruleE s0
      = ([], [noURLsWarn], .ok { s0 with fork := ruleE.fork }) ∧
    runRules unitFns prOracle true [] [ruleE] s0
      = ((runRules unitFns prOracle true [] [] { s0 with fork := ruleE.fork }).1,
         noURLsWarn ::
           (runRules unitFns prOracle true [] [] { s0 with fork := ruleE.fork }).2.1,
         (runRules unitFns prOracle true [] [] { s0 with fork := ruleE.fork }).2.2) :=
  c5_empty_rule_noop unitFns prOracle true [] ruleE [] s0 rfl

/-- C10: the default-title synthesis is not total over non-empty git URLs:
for the non-empty URL `"repo"`, which contains no slash, the split has a
single segment, so the source's index `len-2` is out of range (the embedding
returns `none`, modelling the Go index-out-of-range panic). -/
theorem c10_title_synthesis_not_total :
    ("repo" : String) ≠ "" ∧ (goSplit '/' "repo").length = 1 ∧
    ∀ version, defaultTitle "repo" version = none := by
  refine ⟨by decide, by decide, fun version => ?_⟩
  have h : goSplit '/' "repo" = ["repo"] := by decide
  simp [defaultTitle, h]

/-- C1 counterexample: with no configured title, `Version = "1.2.3"` and
git URL `"https://github.com/acme/widgets.git"`, the change function
synthesizes `"chore(deps): upgrade acme/widgets.git to version 1.2.3"` —
not the claimed `"chore(deps): upgrade acme/widgets to version 1.2.3"`:
the source uses the last path segment verbatim, keeping the `.git`
suffix. -/
theorem c1_counterexample :
    (processURL unitFns prOracle true [] [] s0
        "https://github.com/acme/widgets.git").1.titleAfterFn
      = some "chore(deps): upgrade acme/widgets.git to version 1.2.3" ∧
    (processURL unitFns prOracle true [] [] s0
        "https://github.com/acme/widgets.git").1.titleAfterFn
      ≠ some "chore(deps): upgrade acme/widgets to version 1.2.3" := by
  constructor <;> decide

/-- C1 (amended): for git URL `"https://github.com/acme/widgets.git"` and
version `"1.2.3"` with no title configured, the synthesized title is
`"chore(deps): upgrade acme/widgets.git to version 1.2.3"`, the org/repo
part being the last two path segments of the URL taken verbatim (the
`.git` suffix included). -/
theorem c1_default_title_synthesis :
    defaultTitle "https://github.com/acme/widgets.git" "1.2.3"
      = some "chore(deps): upgrade acme/widgets.git to version 1.2.3" ∧
    (processURL unitFns prOracle true [] [] s0
        "https://github.com/acme/widgets.git").1.titleAfterFn
      = some "chore(deps): upgrade acme/widgets.git to version 1.2.3" := by
  constructor <;> decide

/-- C3: version resolution in `Validate` follows the precedence: an
explicitly set version is returned unchanged; otherwise the trimmed
contents of the version file (at the configured path, defaulting to
`<dir>/VERSION`) are used when the file exists and its trimmed contents are
non-empty (an empty trimmed file contributes no version); otherwise the
`VERSION` environment variable is used; and when all three sources are
empty and `NoVersion` is false, the missing-option error for `"version"`
is returned. -/
theorem c3_version_precedence (i : VersionInputs) :
    (i.version ≠ "" → validateVersion i = .ok i.version) ∧
    (i.version = "" →
      ∀ d, i.fileContents (versionFilePath i) = some d → trimSpace d ≠ "" →
        validateVersion i = .ok (trimSpace d)) ∧
    (i.version = "" → fileVersion i = "" → i.envVERSION ≠ "" →
      validateVersion i = .ok i.envVERSION) ∧
    (i.version = "" → fileVersion i = "" → i.envVERSION = "" → i.noVersion = false →
      validateVersion i = .error (.missingOption "version")) := by
  refine ⟨fun h => ?_, fun h1 d hd ht => ?_, fun h1 h2 h3 => ?_, fun h1 h2 h3 h4 => ?_⟩
  · simp [validateVersion, h]
  · simp [validateVersion, fileVersion, h1, hd, ht]
  · simp [validateVersion, h1, h2, h3]
  · simp [validateVersion, h1, h2, h3, h4]

/-- Witness for C3: an explicit `9.9.9` overrides a version file containing
`1.0.0` and `VERSION=2.0.0` in the environment; with all three sources
empty and `NoVersion` unset, the missing-option error is returned. -/
theorem c3_version_precedence_witness :
    validateVersion vinp1 = .ok "9.9.9" ∧
    validateVersion vinp2 = .error (.missingOption "version") :=
  ⟨(c3_version_precedence vinp1).1 (by decide),
   (c3_version_precedence vinp2).2.2.2 (by decide) (by decide) (by decide) (by decide)⟩

/-- When the pull-request title field is non-empty at the time the deferred
change function runs, the function leaves it unchanged (the synthesis at
lines 172-176 is guarded by the field being empty). -/
theorem changeFn_title_keep (fns : ApplyFns σ κ γ ρ ν)
    (createOracle : String → Except String (Option String))
    (changes : List (Change κ γ ρ ν)) (gitURL : String) (s2 : EngineState σ)
    (h : s2.pullRequestTitle ≠ "") :
    ((changeFnAndCreate fns createOracle changes gitURL s2).1).getD s2.pullRequestTitle
        = s2.pullRequestTitle ∧
    (((changeFnAndCreate fns createOracle changes gitURL s2).2.2).toOption.map
        (fun x => x.pullRequestTitle)).getD s2.pullRequestTitle = s2.pullRequestTitle := by
  unfold changeFnAndCreate
  rcases h2 : (runChanges fns gitURL s2.fs changes).2 with e | fs2
  · simp [Except.toOption]
  · rw [if_neg h]
    rcases h3 : createOracle gitURL with e2 | v
    · simp [Except.toOption]
    · rcases v with _ | pr <;> simp [Except.toOption]

/-- C2 counterexample: in a run over two URLs with no configured title, the
second URL's details title and post-change-function title both equal the
title synthesized from the FIRST URL's path segments
(`acme/widgets.git`), not a title synthesized from the second URL's own
segments (`acme/gadgets.git`): the `PullRequestTitle` field set during the
first iteration carries over. -/
theorem c2_counterexample :
    defaultTitle "https://github.com/acme/gadgets.git" "1.2.3"
      = some "chore(deps): upgrade acme/gadgets.git to version 1.2.3" ∧
    ((runRules unitFns prOracle true [] rules2 s0).1.map
        (fun t => (t.url, t.detailsTitle, t.titleAfterFn)))
      = [("https://github.com/acme/widgets.git", "",
            some "chore(deps): upgrade acme/widgets.git to version 1.2.3"),
         ("https://github.com/acme/gadgets.git",
            "chore(deps): upgrade acme/widgets.git to version 1.2.3",
            some "chore(deps): upgrade acme/widgets.git to version 1.2.3")] ∧
    ("chore(deps): upgrade acme/widgets.git to version 1.2.3" : String)
      ≠ "chore(deps): upgrade acme/gadgets.git to version 1.2.3" := by
  refine ⟨by decide, by decide, by decide⟩

/-- C2 (amended): the details struct is rebuilt at each iteration, but the
`PullRequestTitle` field persists on the shared options: when it is
non-empty at the start of an iteration (e.g. synthesized for an earlier
URL), that same title is placed into the iteration's details and is left
unchanged by the change function, so later URLs reuse the earlier title
instead of one synthesized from their own path segments. -/
theorem c2_title_carryover (fns : ApplyFns σ κ γ ρ ν)
    (createOracle : String → Except String (Option String)) (autoMerge : Bool)
    (labels : List String) (changes : List (Change κ γ ρ ν)) (s : EngineState σ)
    (gitURL : String) (h : s.pullRequestTitle ≠ "") :
    (processURL fns createOracle autoMerge labels changes s gitURL).1.detailsTitle
        = s.pullRequestTitle ∧
    (((processURL fns createOracle autoMerge labels changes s gitURL).1.titleAfterFn).getD
        s.pullRequestTitle = s.pullRequestTitle ∧
      (((processURL fns createOracle autoMerge labels changes s gitURL).2).toOption.map
          (fun x => x.pullRequestTitle)).getD s.pullRequestTitle = s.pullRequestTitle) := by
  refine ⟨rfl, ?_⟩
  cases autoMerge with
  | false => exact changeFn_title_keep fns createOracle changes gitURL _ h
  | true => exact changeFn_title_keep fns createOracle changes gitURL _ h

/-- Witness for C2 (amended) at a state with configured title `"t0"`. -/
theorem c2_title_carryover_witness :
    (processURL unitFns prOracle true [] [] sT
        "https://github.com/acme/gadgets.git").1.detailsTitle = sT.pullRequestTitle ∧
    (((processURL unitFns prOracle true [] [] sT
          "https://github.com/acme/gadgets.git").1.titleAfterFn).getD sT.pullRequestTitle
        = sT.pullRequestTitle ∧
      (((processURL unitFns prOracle true [] [] sT
            "https://github.com/acme/gadgets.git").2).toOption.map
          (fun x => x.pullRequestTitle)).getD sT.pullRequestTitle = sT.pullRequestTitle) :=
  c2_title_carryover unitFns prOracle true [] [] sT
    "https://github.com/acme/gadgets.git" (by decide)

/-- Running the change loop over a prefix that fully succeeds composes: the
loop over `l1 ++ l2` invokes all of `l1` and then behaves as the loop over
`l2` from the file-system state `l1` produced. -/
theorem runChanges_ok_append (fns : ApplyFns σ κ γ ρ ν) (u : String) :
    ∀ (l1 : List (Change κ γ ρ ν)) (fs fs2 : σ),
      (runChanges fns u fs l1).2 = .ok fs2 →
      ∀ l2, runChanges fns u fs (l1 ++ l2)
        = (l1.length + (runChanges fns u fs2 l2).1, (runChanges fns u fs2 l2).2) := by
  intro l1
  induction l1 with
  | nil =>
    intro fs fs2 h l2
    simp [runChanges] at h
    subst h
    simp [runChanges]
  | cons ch l1 ih =>
    intro fs fs2 h l2
    rcases hA : ApplyChanges fns fs u ch with e | p
    · simp [runChanges, hA] at h
    · obtain ⟨fs3, logs⟩ := p
      simp only [runChanges, hA] at h
      have ihh := ih fs3 fs2 h l2
      simp only [List.cons_append, runChanges, hA, List.length_cons, List.append_eq]
      rw [ihh, Prod.mk.injEq]
      exact ⟨by omega, rfl⟩

/-- A change list whose head fails yields the wrapped error after exactly
one invocation. -/
theorem runChanges_cons_error (fns : ApplyFns σ κ γ ρ ν) (u : String) (fs : σ)
    (ch : Change κ γ ρ ν) (rest : List (Change κ γ ρ ν)) (e : String)
    (h : ApplyChanges fns fs u ch = .error e) :
    runChanges fns u fs (ch :: rest) = (1, .error ("failed to apply change: " ++ e)) := by
  simp [runChanges, h]

/-- C4: if the `k`-th change of a rule fails for a repository URL after the
first `k` changes succeeded, the change function stops after invoking
exactly `k+1` changes and returns the failure wrapped as
`"failed to apply change"`, and the whole run aborts with that error
wrapped with the repository URL: the run's only iteration trace is the
failing URL's (so no later change, URL or rule is processed) and no pull
request is recorded for it. -/
theorem c4_change_failure_aborts_run (fns : ApplyFns σ κ γ ρ ν)
    (createOracle : String → Except String (Option String)) (autoMerge : Bool)
    (labels : List String) (fork : Bool) (u : String) (restUrls : List String)
    (restRules : List (Rule κ γ ρ ν)) (cs : List (Change κ γ ρ ν)) (k : Nat)
    (s : EngineState σ) (fsk : σ) (e : String)
    (hu : u ≠ "") (hk : k < cs.length)
    (hpre : (runChanges fns u s.fs (cs.take k)).2 = .ok fsk)
    (hfail : ApplyChanges fns fsk u (cs.get ⟨k, hk⟩) = .error e) :
    runChanges fns u s.fs cs = (k + 1, .error ("failed to apply change: " ++ e)) ∧
    (runRules fns createOracle autoMerge labels
        ({ fork := fork, urls := u :: restUrls, changes := cs } :: restRules) s).2.2
      = .error (prWrap u ("failed to apply change: " ++ e)) ∧
    ((runRules fns createOracle autoMerge labels
        ({ fork := fork, urls := u :: restUrls, changes := cs } :: restRules) s).1.map
        (fun t => (t.url, t.attempted, t.created)))
      = [(u, k + 1, none)] := by
  have hdrop : cs.drop k = cs.get ⟨k, hk⟩ :: cs.drop (k + 1) := by
    rw [List.drop_eq_getElem_cons hk]
    simp
  have ha : runChanges fns u s.fs cs = (k + 1, .error ("failed to apply change: " ++ e)) := by
    calc runChanges fns u s.fs cs
        = runChanges fns u s.fs (cs.take k ++ cs.drop k) := by
          rw [List.take_append_drop]
      _ = ((cs.take k).length + (runChanges fns u fsk (cs.drop k)).1,
            (runChanges fns u fsk (cs.drop k)).2) :=
          runChanges_ok_append fns u (cs.take k) s.fs fsk hpre (cs.drop k)
      _ = (k + 1, .error ("failed to apply change: " ++ e)) := by
          rw [hdrop, runChanges_cons_error fns u fsk _ _ e hfail]
          rw [Prod.mk.injEq]
          refine ⟨?_, rfl⟩
          simp [List.length_take]
          omega
  have hb : processURL fns createOracle autoMerge labels cs { s with fork := fork } u
      = ({ url := u, branchAtDetails := "", detailsTitle := s.pullRequestTitle,
           titleAfterFn := none,
           filterAtCreate := if autoMerge then ensureLabel (s.filterLabels.getD [])
                             else s.filterLabels.getD [],
           attempted := k + 1, created := none },
         .error (prWrap u ("failed to apply change: " ++ e))) := by
    cases autoMerge <;> simp [processURL, changeFnAndCreate, mkDetails, ha]
  have hr : runRules fns createOracle autoMerge labels
      ({ fork := fork, urls := u :: restUrls, changes := cs } :: restRules) s
      = ([{ url := u, branchAtDetails := "", detailsTitle := s.pullRequestTitle,
            titleAfterFn := none,
            filterAtCreate := if autoMerge then ensureLabel (s.filterLabels.getD [])
                              else s.filterLabels.getD [],
            attempted := k + 1, created := none }], [],
         .error (prWrap u ("failed to apply change: " ++ e))) := by
    simp [runRules, processRule, processURLs, hu, hb]
  exact ⟨ha, by rw [hr], by rw [hr]; simp⟩

/-- Witness for C4: under `failFns` the second change of `csW` (a
command-variant change) fails with `"boom"` after the first (an all-nil
change) succeeded; the wrapped error aborts the run before the rule's
second URL and before a whole further rule. -/
theorem c4_change_failure_aborts_run_witness :
    runChanges failFns urlW s0.fs csW = (1 + 1, .error ("failed to apply change: " ++ "boom")) ∧
    (runRules failFns prOracle true []
        ({ fork := false, urls := urlW :: ["https://github.com/acme/gadgets.git"],
           changes := csW }
          :: [{ fork := false, urls := [urlW], changes := [] }]) s0).2.2
      = .error (prWrap urlW ("failed to apply change: " ++ "boom")) ∧
    ((runRules failFns prOracle true []
        ({ fork := false, urls := urlW :: ["https://github.com/acme/gadgets.git"],
           changes := csW }
          :: [{ fork := false, urls := [urlW], changes := [] }]) s0).1.map
        (fun t => (t.url, t.attempted, t.created)))
      = [(urlW, 1 + 1, none)] :=
  c4_change_failure_aborts_run failFns prOracle true [] false urlW
    ["https://github.com/acme/gadgets.git"] [{ fork := false, urls := [urlW], changes := [] }]
    csW 1 s0 () "boom" (by decide) (by decide) rfl rfl

/-- The sentinel label is a member after `ensureLabel`. -/
theorem ensureLabel_mem (ls : List String) : sentinelLabel ∈ ensureLabel ls := by
  unfold ensureLabel
  split
  · assumption
  · simp

/-- `ensureLabel` is idempotent. -/
theorem ensureLabel_idem (ls : List String) : ensureLabel (ensureLabel ls) = ensureLabel ls := by
  rw [ensureLabel, if_pos (ensureLabel_mem ls)]

/-- `ensureLabel` appends the sentinel at most once: the sentinel's
occurrence count afterwards is the maximum of 1 and its previous count. -/
theorem ensureLabel_count (ls : List String) :
    (ensureLabel ls).count sentinelLabel = max 1 (ls.count sentinelLabel) := by
  unfold ensureLabel
  split
  · rename_i hmem
    have h1 : 0 < ls.count sentinelLabel := List.count_pos_iff.mpr hmem
    omega
  · rename_i hmem
    rw [List.count_append, List.count_eq_zero_of_not_mem hmem, List.count_singleton_self]
    omega

/-- The filter labels recorded at the `Create` call are exactly the
incoming filter labels with the sentinel ensured (under auto-merge), or the
incoming labels unchanged (without auto-merge). -/
theorem processURL_filterAtCreate (fns : ApplyFns σ κ γ ρ ν)
    (createOracle : String → Except String (Option String)) (autoMerge : Bool)
    (labels : List String) (changes : List (Change κ γ ρ ν)) (s : EngineState σ)
    (u : String) :
    (processURL fns createOracle autoMerge labels changes s u).1.filterAtCreate
      = if autoMerge then ensureLabel (s.filterLabels.getD [])
        else s.filterLabels.getD [] := rfl

/-- The deferred change function and `Create` never modify the
pull-request filter labels. -/
theorem changeFnAndCreate_filter (fns : ApplyFns σ κ γ ρ ν)
    (createOracle : String → Except String (Option String))
    (changes : List (Change κ γ ρ ν)) (u : String) (s2 s2b : EngineState σ)
    (h : (changeFnAndCreate fns createOracle changes u s2).2.2 = .ok s2b) :
    s2b.filterLabels = s2.filterLabels := by
  unfold changeFnAndCreate at h
  rcases h2 : (runChanges fns u s2.fs changes).2 with e | fs2 <;> rw [h2] at h
  · simp at h
  · rcases h3 : (if s2.pullRequestTitle = "" then defaultTitle u s2.version
        else some s2.pullRequestTitle) with _ | t <;> rw [h3] at h
    · simp at h
    · rcases h4 : createOracle u with e2 | v <;> rw [h4] at h
      · simp at h
      · rcases v with _ | pr <;> simp at h <;> rw [← h]

/-- Under auto-merge, a successful iteration leaves the filter labels equal
to the incoming labels with the sentinel ensured. -/
theorem processURL_filter_ok (fns : ApplyFns σ κ γ ρ ν)
    (createOracle : String → Except String (Option String)) (labels : List String)
    (changes : List (Change κ γ ρ ν)) (s s2 : EngineState σ) (u : String)
    (h : (processURL fns createOracle true labels changes s u).2 = .ok s2) :
    s2.filterLabels = some (ensureLabel (s.filterLabels.getD [])) :=
  changeFnAndCreate_filter fns createOracle changes u
    { s with branchName := "",
             filterLabels := some (ensureLabel (s.filterLabels.getD [])) } s2 h

/-- Invariant step: from a state whose filter labels are the initial list
or the initial list with the sentinel ensured, an iteration calls `Create`
with the sentinel ensured exactly once over the initial list, and any
successful outcome preserves the invariant. -/
theorem inv_step (fns : ApplyFns σ κ γ ρ ν)
    (createOracle : String → Except String (Option String)) (labels : List String)
    (changes : List (Change κ γ ρ ν)) (f0 : List String) (s : EngineState σ)
    (u : String) (hInv : inv f0 s) :
    (processURL fns createOracle true labels changes s u).1.filterAtCreate
        = ensureLabel f0 ∧
    ∀ s2, (processURL fns createOracle true labels changes s u).2 = .ok s2 →
      inv f0 s2 := by
  obtain hcur | hcur := hInv
  · refine ⟨?_, fun s2 h => ?_⟩
    · rw [processURL_filterAtCreate, hcur]
      simp
    · right
      rw [processURL_filter_ok fns createOracle labels changes s s2 u h, hcur]
      simp
  · refine ⟨?_, fun s2 h => ?_⟩
    · rw [processURL_filterAtCreate, hcur]
      simp [ensureLabel_idem]
    · right
      rw [processURL_filter_ok fns createOracle labels changes s s2 u h, hcur]
      simp [ensureLabel_idem]

/-- Invariant over the URL loop: every iteration's `Create` sees the
sentinel ensured exactly over the initial filter labels, and a successful
loop preserves the invariant. -/
theorem processURLs_inv (fns : ApplyFns σ κ γ ρ ν)
    (createOracle : String → Except String (Option String)) (labels : List String)
    (changes : List (Change κ γ ρ ν)) (f0 : List String) :
    ∀ (urls : List String) (s : EngineState σ), inv f0 s →
      (∀ t ∈ (processURLs fns createOracle true labels changes s urls).1,
          t.filterAtCreate = ensureLabel f0) ∧
      (∀ s2, (processURLs fns createOracle true labels changes s urls).2.2 = .ok s2 →
          inv f0 s2) := by
  intro urls
  induction urls with
  | nil =>
    intro s hs
    refine ⟨fun t ht => ?_, fun s2 h => ?_⟩
    · simp [processURLs] at ht
    · simp [processURLs] at h
      exact h ▸ hs
  | cons u rest ih =>
    intro s hs
    by_cases hu : u = ""
    · subst hu
      refine ⟨fun t ht => ?_, fun s2 h => ?_⟩
      · simp only [processURLs, if_pos rfl] at ht
        exact (ih s hs).1 t ht
      · simp only [processURLs, if_pos rfl] at h
        exact (ih s hs).2 s2 h
    · have hstep := inv_step fns createOracle labels changes f0 s u hs
      rcases hP : processURL fns createOracle true labels changes s u with ⟨t0, r0⟩
      rcases r0 with e | snext
      · refine ⟨fun t ht => ?_, fun s2 h => ?_⟩
        · simp only [processURLs, if_neg hu, hP] at ht
          simp at ht
          subst ht
          have := hstep.1
          rw [hP] at this
          exact this
        · simp only [processURLs, if_neg hu, hP] at h
          simp at h
      · have hsnext : inv f0 snext := by
          apply hstep.2
          rw [hP]
        refine ⟨fun t ht => ?_, fun s2 h => ?_⟩
        · simp only [processURLs, if_neg hu, hP] at ht
          simp at ht
          rcases ht with ht | ht
          · subst ht
            have := hstep.1
            rw [hP] at this
            exact this
          · exact (ih snext hsnext).1 t ht
        · simp only [processURLs, if_neg hu, hP] at h
          exact (ih snext hsnext).2 s2 h

/-- Invariant over one rule: the fork update does not touch the filter. -/
theorem processRule_inv (fns : ApplyFns σ κ γ ρ ν)
    (createOracle : String → Except String (Option String)) (labels : List String)
    (f0 : List String) (r : Rule κ γ ρ ν) (s : EngineState σ) (hs : inv f0 s) :
    (∀ t ∈ (processRule fns createOracle true labels r s).1,
        t.filterAtCreate = ensureLabel f0) ∧
    (∀ s2, (processRule fns createOracle true labels r s).2.2 = .ok s2 → inv f0 s2) := by
  unfold processRule
  split
  · refine ⟨fun t ht => ?_, fun s2 h => ?_⟩
    · simp at ht
    · simp at h
      exact h ▸ (hs : inv f0 { s with fork := r.fork })
  · exact processURLs_inv fns createOracle labels r.changes f0 r.urls
      { s with fork := r.fork } hs

/-- Invariant over the whole run: every `Create` call of the run sees the
sentinel ensured exactly over the run's initial filter labels. -/
theorem runRules_inv (fns : ApplyFns σ κ γ ρ ν)
    (createOracle : String → Except String (Option String)) (labels : List String)
    (f0 : List String) :
    ∀ (rules : List (Rule κ γ ρ ν)) (s : EngineState σ), inv f0 s →
      ∀ t ∈ (runRules fns createOracle true labels rules s).1,
        t.filterAtCreate = ensureLabel f0 := by
  intro rules
  induction rules with
  | nil =>
    intro s hs t ht
    simp [runRules] at ht
  | cons r rest ih =>
    intro s hs t ht
    have hr := processRule_inv fns createOracle labels f0 r s hs
    rcases hR : processRule fns createOracle true labels r s with ⟨ts, ws, res⟩
    rcases res with e | s2
    · simp only [runRules, hR] at ht
      have := hr.1 t
      rw [hR] at this
      exact this ht
    · simp only [runRules, hR] at ht
      simp at ht
      rcases ht with ht | ht
      · have := hr.1 t
        rw [hR] at this
        exact this ht
      · have hs2 : inv f0 s2 := by
          apply hr.2
          rw [hR]
        exact ih s2 hs2 t ht

/-- C9: with auto-merge enabled, every `Create` call of a run sees the
sentinel `"updatebot"` label in the pull-request filter's label list, and
the sentinel is appended at most once: across any number of URLs its
occurrence count at every `Create` is `max 1 c0`, where `c0` is its count
in the run's initial filter labels (in particular, exactly one when it was
absent initially, and never more than the initial count plus one). -/
theorem c9_sentinel_label_once (fns : ApplyFns σ κ γ ρ ν)
    (createOracle : String → Except String (Option String)) (labels : List String)
    (rules : List (Rule κ γ ρ ν)) (s : EngineState σ) :
    ∀ t, t ∈ (runRules fns createOracle true labels rules s).1 →
      sentinelLabel ∈ t.filterAtCreate ∧
      t.filterAtCreate.count sentinelLabel
        = max 1 ((s.filterLabels.getD []).count sentinelLabel) := by
  intro t ht
  have h := runRules_inv fns createOracle labels (s.filterLabels.getD [])
    rules s (Or.inl rfl) t ht
  rw [h]
  exact ⟨ensureLabel_mem _, ensureLabel_count _⟩

/-- Witness for C9: the first iteration of a concrete run from an initially
nil filter calls `Create` with the sentinel present exactly once. -/
theorem c9_sentinel_label_once_witness :
    sentinelLabel ∈ t9.filterAtCreate ∧
    t9.filterAtCreate.count sentinelLabel
      = max 1 ((s0.filterLabels.getD []).count sentinelLabel) :=
  c9_sentinel_label_once unitFns prOracle [] rules2 s0 t9 (by decide)

end JxUpdatebot
